import Mathlib

/-!
# Verification of the paper text-extraction and normalization subsystem

A shallow embedding of the core components of the arxiv-sota-agent
repository: the metric normalizer (`src/sota_agent/model/schema.py`,
`SOTAEntry.normalize_metric`), the LaTeX comment stripper, section
segmenter, content cleaner, relevance filter and LLM-text assembler
(`src/sota_agent/paper.py`, class `ArxivPaper`), and the `\input`
resolver (`src/sota_agent/utils/fetcher.py`, `_resolve_latex_inputs`).

Python strings are modelled as `List Char` (ASCII: the character-class
tests `str.isdigit` and `str.strip` are modelled over their ASCII
behaviour, which covers every input appearing in the claims).
Python floats are modelled as exact rationals `ℚ`: every numeral that
reaches `float()` in the modelled paths is a plain decimal numeral, and
the only arithmetic applied is division by 100, so the rational model
agrees with the float semantics on all values compared here.
-/

namespace SotaAgent

/-! ### Character classes and Python string primitives -/

/-- Whitespace characters recognized by Python `str.strip` / `str.split`
(ASCII range). -/
def isWSChar (c : Char) : Bool :=
  c = ' ' || c = '\t' || c = '\n' || c = '\r' || c = '\x0b' || c = '\x0c'

/-- Python `str.strip()`: drop whitespace from both ends. -/
def pyStrip (s : List Char) : List Char :=
  ((s.dropWhile isWSChar).reverse.dropWhile isWSChar).reverse

/-- ASCII decimal digit. -/
def isDigitChar (c : Char) : Bool := '0' ≤ c && c ≤ '9'

/-- Python `str.isdigit()` on ASCII input: nonempty and all digits. -/
def pyIsdigit (s : List Char) : Bool := !s.isEmpty && s.all isDigitChar

/-- Python `str.replace(c, "", 1)`: remove the first occurrence of `c`. -/
def removeFirst (c : Char) : List Char → List Char
  | [] => []
  | x :: rest => if x = c then rest else x :: removeFirst c rest

def digitVal (c : Char) : ℕ := c.toNat - Char.toNat '0'

/-- Value of a string of decimal digits. -/
def natOfDigits (s : List Char) : ℕ := s.foldl (fun a c => 10 * a + digitVal c) 0

/-- Python `float()` on a decimal numeral `digits [ . digits ]`, as an
exact rational. The callers below only apply it to strings that passed
the `isdigit` gate of `normalize_metric`, which have this shape. -/
def parseDecimal (s : List Char) : ℚ :=
  let ip := s.takeWhile (fun c => c ≠ '.')
  let fp := (s.dropWhile (fun c => c ≠ '.')).drop 1
  (natOfDigits ip : ℚ) + (natOfDigits fp : ℚ) / (10 : ℚ) ^ fp.length

/-! ### Structured-Result Normalizer (`SOTAEntry.normalize_metric`) -/

/-- The raw `metric_value` as it arrives from the deserialized LLM
response: JSON null, a string, or a number. -/
inductive RawMetric where
  | null : RawMetric
  | str : List Char → RawMetric
  | num : ℚ → RawMetric

/-- `SOTAEntry.normalize_metric` (schema.py lines 55-74):
null maps to `-1.0`; a string has every `%` removed (`str.replace`)
and is stripped, then gated by `v.replace('.', '', 1).isdigit()`;
the parsed value maps to `-1.0` if negative, is divided by 100 if
greater than 1, and is kept otherwise. -/
def normalize_metric : RawMetric → ℚ
  | .null => -1
  | .str s =>
    let v := pyStrip (s.filter (fun c => c ≠ '%'))
    if pyIsdigit (removeFirst '.' v) then
      let val := parseDecimal v
      if val < 0 then -1 else if 1 < val then val / 100 else val
    else -1
  | .num q => if q < 0 then -1 else if 1 < q then q / 100 else q

/-- The numeric value that reaches the final normalization step of
`normalize_metric` (`none` when the sentinel path is taken before
parsing). -/
def parsedVal : RawMetric → Option ℚ
  | .null => none
  | .str s =>
    let v := pyStrip (s.filter (fun c => c ≠ '%'))
    if pyIsdigit (removeFirst '.' v) then some (parseDecimal v) else none
  | .num q => some q

/-- Modelled from the spec (§4.7 step 2) for refinement comparison, not
from the code: strip surrounding whitespace and one *trailing* `%` sign
only. -/
def specCleanMetricStr (s : List Char) : List Char :=
  let t := pyStrip s
  let t2 := match t.reverse with
    | '%' :: r => r.reverse
    | _ => t
  pyStrip t2

/-- Modelled from the spec (§4.7) for refinement comparison: like
`normalize_metric` but with only a trailing `%` stripped from string
input, as the spec's words demand. -/
def specNormalizeMetric : RawMetric → ℚ
  | .null => -1
  | .str s =>
    let v := specCleanMetricStr s
    if pyIsdigit (removeFirst '.' v) then
      let val := parseDecimal v
      if val < 0 then -1 else if 1 < val then val / 100 else val
    else -1
  | .num q => if q < 0 then -1 else if 1 < q then q / 100 else q

/-! ### Comment Stripper (`ArxivPaper._remove_latex_comments`) -/

/-- Python `text.split('\n')`. -/
def splitLines : List Char → List (List Char)
  | [] => [[]]
  | c :: rest =>
    if c = '\n' then [] :: splitLines rest
    else match splitLines rest with
      | [] => [[c]]
      | l :: ls => (c :: l) :: ls

/-- Python `'\n'.join(lines)`. -/
def joinLines : List (List Char) → List Char
  | [] => []
  | [l] => l
  | l :: l2 :: rest => l ++ '\n' :: joinLines (l2 :: rest)

/-- The per-line body of `_remove_latex_comments` (paper.py lines
114-121): look up the first `%` in the line; if there is one and it is
at position 0 or not immediately preceded by a backslash, truncate the
line there; otherwise keep the line whole. -/
def stripLineComment (line : List Char) : List Char :=
  match line.findIdx? (fun c => c = '%') with
  | none => line
  | some p => if p = 0 ∨ ¬(getElem? line (p-1) = some '\\') then line.take p else line

/-- `ArxivPaper._remove_latex_comments` (paper.py lines 110-122). -/
def removeLatexComments (t : List Char) : List Char :=
  joinLines ((splitLines t).map stripLineComment)

/-- Modelled from the spec (§4.1) for refinement comparison, not from
the code: truncate each line at its first *unescaped* `%`, scanning the
whole line instead of examining only the first `%`. -/
def specStripLineGo : Option Char → List Char → List Char
  | _, [] => []
  | prev, c :: rest =>
    if c = '%' ∧ prev ≠ some '\\' then []
    else c :: specStripLineGo (some c) rest

/-- Modelled from the spec (§4.1): per-line truncation at the first
unescaped `%`. -/
def specStripLine (line : List Char) : List Char := specStripLineGo none line

/-! ### Generic regex-substitution scanners

Python's `re.sub` / `re.finditer` scan left to right, take the leftmost
match, do not rescan replacement text, and continue after the match end.
Each concrete pattern used by the code is modelled as a matcher
`List Char → Option (consumed length × payload)` applied at each
position; all patterns used below consume at least one character. -/

/-- `re.sub` worker with explicit fuel (the scan consumes at least one
character per step, so fuel = input length suffices; structural
recursion on the fuel keeps the function kernel-reducible). -/
def reSubGo (f : List Char → Option (ℕ × List Char)) : ℕ → List Char → List Char
  | 0, l => l
  | _, [] => []
  | fuel + 1, c :: rest =>
    match f (c :: rest) with
    | some (n, rep) =>
      if 0 < n then rep ++ reSubGo f fuel (rest.drop (n - 1))
      else c :: reSubGo f fuel rest
    | none => c :: reSubGo f fuel rest

/-- `re.sub`: replace each leftmost match (matcher gives length and
replacement text). -/
def reSub (f : List Char → Option (ℕ × List Char)) (l : List Char) : List Char :=
  reSubGo f l.length l

/-- First position (and consumed length) at which a sub-pattern matches:
the search that a non-greedy `.*?` before the sub-pattern performs. -/
def findPat (pat : List Char → Option ℕ) : List Char → Option (ℕ × ℕ)
  | [] => none
  | c :: rest =>
    match pat (c :: rest) with
    | some n => some (0, n)
    | none =>
      match findPat pat rest with
      | some (off, n) => some (off + 1, n)
      | none => none

/-- `re.finditer` worker with explicit fuel: all non-overlapping
leftmost matches with their start/end offsets and payloads. -/
def findMatchesGoF (f : List Char → Option (ℕ × List Char)) :
    ℕ → List Char → ℕ → List (ℕ × ℕ × List Char)
  | 0, _, _ => []
  | _, [], _ => []
  | fuel + 1, c :: rest, pos =>
    match f (c :: rest) with
    | some (n, a) =>
      if 0 < n then
        (pos, pos + n, a) :: findMatchesGoF f fuel (rest.drop (n - 1)) (pos + n)
      else findMatchesGoF f fuel rest (pos + 1)
    | none => findMatchesGoF f fuel rest (pos + 1)

def isAsciiLetter (c : Char) : Bool :=
  ('a' ≤ c && c ≤ 'z') || ('A' ≤ c && c ≤ 'Z')

def isLowerAlpha (c : Char) : Bool := 'a' ≤ c && c ≤ 'z'

def pyLower (s : List Char) : List Char := s.map Char.toLower

/-! ### Title cleaning (`ArxivPaper._clean_latex_title`) -/

/-- Matcher for the title-cleaning pattern `\\[a-zA-Z]+\{([^}]*)\}`;
the replacement is the brace group. -/
def tryTitleUnwrap : List Char → Option (ℕ × List Char)
  | '\\' :: rest =>
    let letters := rest.takeWhile isAsciiLetter
    if letters.isEmpty then none
    else match rest.drop letters.length with
      | '{' :: r2 =>
        let arg := r2.takeWhile (fun c => c ≠ '}')
        if arg.length < r2.length then
          some (1 + letters.length + 1 + arg.length + 1, arg)
        else none
      | _ => none
  | _ => none

/-- Matcher for the title-cleaning pattern `\\[a-zA-Z]+` (bare command);
replaced by nothing. -/
def tryBareCmd : List Char → Option (ℕ × List Char)
  | '\\' :: rest =>
    let letters := rest.takeWhile isAsciiLetter
    if letters.isEmpty then none else some (1 + letters.length, [])
  | _ => none

/-- Python `str.split()` (split on whitespace runs, no empty words). -/
def pySplitGo : List Char → List Char → List (List Char)
  | [], acc => if acc.isEmpty then [] else [acc.reverse]
  | c :: rest, acc =>
    if isWSChar c then
      if acc.isEmpty then pySplitGo rest []
      else acc.reverse :: pySplitGo rest []
    else pySplitGo rest (c :: acc)

def pySplit (s : List Char) : List (List Char) := pySplitGo s []

/-- Python `' '.join(words)`. -/
def joinSpace : List (List Char) → List Char
  | [] => []
  | [w] => w
  | w :: w2 :: rest => w ++ ' ' :: joinSpace (w2 :: rest)

/-- `' '.join(s.split())`: collapse all whitespace runs to single
spaces and trim the ends. -/
def normalizeWS (s : List Char) : List Char := joinSpace (pySplit s)

def isTrailPunct (c : Char) : Bool := c = '.' || c = ':' || c = ';' || c = ','

/-- Python `str.rstrip('.:;,')`. -/
def rstripPunct (s : List Char) : List Char :=
  (s.reverse.dropWhile isTrailPunct).reverse

/-- `ArxivPaper._clean_latex_title` (paper.py lines 135-147): unwrap
one level of `\cmd{text}`, drop bare commands, collapse whitespace,
strip trailing punctuation, strip. -/
def cleanLatexTitle (title : List Char) : List Char :=
  pyStrip (rstripPunct (normalizeWS (reSub tryBareCmd (reSub tryTitleUnwrap title))))

/-! ### Validity checks (`_is_valid_section_title`, `_is_valid_section`) -/

/-- The skip pattern `^appendix\s*[a-z]$` of `_is_valid_section_title`. -/
def matchesAppendixLetter (tl : List Char) : Bool :=
  ("appendix".toList).isPrefixOf tl &&
    (match (tl.drop 8).dropWhile isWSChar with
     | [c] => isLowerAlpha c
     | _ => false)

/-- `ArxivPaper._is_valid_section_title` (paper.py lines 183-202). -/
def isValidSectionTitle (title : List Char) : Bool :=
  if title.isEmpty || title.length < 2 then false
  else
    let tl := pyLower title
    !(("fig".toList).isPrefixOf tl || ("figure".toList).isPrefixOf tl ||
      ("table".toList).isPrefixOf tl || matchesAppendixLetter tl ||
      (match tl with | [c] => isLowerAlpha c | _ => false))

def isSentEnd (c : Char) : Bool := c = '.' || c = '!' || c = '?'

/-- `re.split(r'[.!?]+', s)` worker with explicit fuel: pieces between
runs of sentence delimiters. -/
def splitSentF : ℕ → List Char → List Char → List (List Char)
  | 0, _, acc => [acc.reverse]
  | _, [], acc => [acc.reverse]
  | fuel + 1, c :: rest, acc =>
    if isSentEnd c then acc.reverse :: splitSentF fuel (rest.dropWhile isSentEnd) []
    else splitSentF fuel rest (c :: acc)

def splitSentences (s : List Char) : List (List Char) := splitSentF s.length s []

/-- `ArxivPaper._is_valid_section` (paper.py lines 204-220): nonempty,
at least 50 characters, and at least one sentence of more than 20
characters once stripped. -/
def isValidSection (content : List Char) : Bool :=
  if content.isEmpty then false
  else if content.length < 50 then false
  else (splitSentences content).any (fun s => 20 < (pyStrip s).length)

/-! ### Content cleaning (`ArxivPaper._clean_latex_content`) -/

/-- Literal sub-pattern (e.g. an environment delimiter without star). -/
def litPat (lit : List Char) (l : List Char) : Option ℕ :=
  if lit.isPrefixOf l then some lit.length else none

/-- Sub-pattern `\kw{name}` with an optional `*` before the closing
brace, i.e. `\\kw\{name\*?\}` — used for `equation`/`align`
delimiters, whose begin and end stars match independently. -/
def starEnvPat (kw name : List Char) (l : List Char) : Option ℕ :=
  let pre := '\\' :: (kw ++ '{' :: name)
  if pre.isPrefixOf l then
    match l.drop pre.length with
    | '*' :: '}' :: _ => some (pre.length + 2)
    | '}' :: _ => some (pre.length + 1)
    | _ => none
  else none

/-- Matcher for `begin .*? end` (DOTALL, non-greedy): the whole
environment is removed. -/
def tryRemoveEnv (beginPat endPat : List Char → Option ℕ)
    (l : List Char) : Option (ℕ × List Char) :=
  match beginPat l with
  | some b =>
    match findPat endPat (l.drop b) with
    | some (off, n) => some (b + off + n, [])
    | none => none
  | none => none

/-- Matcher for `\cmd{[^}]+}` (cite/ref/label): removed entirely. -/
def tryRemoveCiteLike (cmd : List Char) (l : List Char) : Option (ℕ × List Char) :=
  let pre := '\\' :: (cmd ++ ['{'])
  if pre.isPrefixOf l then
    let r2 := l.drop pre.length
    let arg := r2.takeWhile (fun c => c ≠ '}')
    if arg.isEmpty then none
    else if arg.length < r2.length then some (pre.length + arg.length + 1, [])
    else none
  else none

/-- Matcher for `\cmd{([^}]*)}` (textbf/textit/emph): replaced by the
group. -/
def tryUnwrapNamed (cmd : List Char) (l : List Char) : Option (ℕ × List Char) :=
  let pre := '\\' :: (cmd ++ ['{'])
  if pre.isPrefixOf l then
    let r2 := l.drop pre.length
    let arg := r2.takeWhile (fun c => c ≠ '}')
    if arg.length < r2.length then some (pre.length + arg.length + 1, arg)
    else none
  else none

/-- Matcher for `\\[a-zA-Z]+\*?\{[^}]*\}` (any remaining command with
one brace argument): removed. -/
def tryCmdWithArg : List Char → Option (ℕ × List Char)
  | '\\' :: rest =>
    let letters := rest.takeWhile isAsciiLetter
    if letters.isEmpty then none
    else
      match rest.drop letters.length with
      | '*' :: '{' :: r3 =>
        let arg := r3.takeWhile (fun c => c ≠ '}')
        if arg.length < r3.length then
          some (1 + letters.length + 2 + arg.length + 1, [])
        else none
      | '{' :: r3 =>
        let arg := r3.takeWhile (fun c => c ≠ '}')
        if arg.length < r3.length then
          some (1 + letters.length + 1 + arg.length + 1, [])
        else none
      | _ => none
  | _ => none

/-- Matcher for `\\[a-zA-Z]+\*?` (any remaining bare command): removed. -/
def tryCmdBareStar : List Char → Option (ℕ × List Char)
  | '\\' :: rest =>
    let letters := rest.takeWhile isAsciiLetter
    if letters.isEmpty then none
    else match rest.drop letters.length with
      | '*' :: _ => some (1 + letters.length + 1, [])
      | _ => some (1 + letters.length, [])
  | _ => none

/-- Matcher for `\n\s*\n\s*\n+` → `\n\n`: a whitespace run starting at
a newline and containing at least three newlines matches up to its last
newline. -/
def tryCollapseNewlines : List Char → Option (ℕ × List Char)
  | '\n' :: rest =>
    let run := ('\n' :: rest).takeWhile isWSChar
    if 3 ≤ run.countP (fun c => c = '\n') then
      some (run.length - (run.reverse.takeWhile (fun c => !(c = '\n'))).length,
        "\n\n".toList)
    else none
  | _ => none

/-- `ArxivPaper._clean_latex_content` (paper.py lines 149-181), with
the substitutions applied in source order. -/
def cleanLatexContent (content : List Char) : List Char :=
  let c1 := reSub (tryRemoveEnv (litPat ("\\begin{figure}".toList))
    (litPat ("\\end{figure}".toList))) content
  let c2 := reSub (tryRemoveEnv (litPat ("\\begin{table}".toList))
    (litPat ("\\end{table}".toList))) c1
  let c3 := reSub (tryRemoveEnv (starEnvPat ("begin".toList) ("equation".toList))
    (starEnvPat ("end".toList) ("equation".toList))) c2
  let c4 := reSub (tryRemoveEnv (starEnvPat ("begin".toList) ("align".toList))
    (starEnvPat ("end".toList) ("align".toList))) c3
  let c5 := reSub (tryRemoveCiteLike ("cite".toList)) c4
  let c6 := reSub (tryRemoveCiteLike ("ref".toList)) c5
  let c7 := reSub (tryRemoveCiteLike ("label".toList)) c6
  let c8 := reSub (tryUnwrapNamed ("textbf".toList)) c7
  let c9 := reSub (tryUnwrapNamed ("textit".toList)) c8
  let c10 := reSub (tryUnwrapNamed ("emph".toList)) c9
  let c11 := reSub tryCmdWithArg c10
  let c12 := reSub tryCmdBareStar c11
  let c13 := reSub tryCollapseNewlines c12
  pyStrip (normalizeWS c13)

/-! ### Abstract extraction (`ArxivPaper._extract_abstract`) -/

/-- Case-insensitive literal prefix test (`re.IGNORECASE` with an
all-lowercase literal pattern). -/
def ciPrefix (pat : List Char) (l : List Char) : Bool :=
  (l.take pat.length).map Char.toLower == pat

/-- Sub-pattern for the case-insensitive literal `\end{abstract}`. -/
def absEndPat (l : List Char) : Option ℕ :=
  if ciPrefix ("\\end{abstract}".toList) l then
    some ("\\end{abstract}".toList).length
  else none

/-- `re.search` of `\\begin\{abstract\}(.*?)\\end\{abstract\}` with
DOTALL and IGNORECASE: leftmost begin delimiter followed by a closing
delimiter, group 1 in between. -/
def extractAbstractGo : List Char → Option (List Char)
  | [] => none
  | c :: rest =>
    if ciPrefix ("\\begin{abstract}".toList) (c :: rest) then
      let body := (c :: rest).drop ("\\begin{abstract}".toList).length
      match findPat absEndPat body with
      | some (off, _) => some (body.take off)
      | none => extractAbstractGo rest
    else extractAbstractGo rest

/-- `ArxivPaper._extract_abstract` (paper.py lines 124-133): matched
content stripped and cleaned. -/
def extractAbstract (t : List Char) : Option (List Char) :=
  (extractAbstractGo t).map (fun raw => cleanLatexContent (pyStrip raw))

/-! ### Section heading matches (`_parse_latex_sections`) -/

/-- Consume the maximal run of repetitions of `sub`, as the greedy
`(sub)*` does when followed by `section` (the literal `section` does
not begin with `sub`, so maximal munch coincides with backtracking). -/
def countSubs : List Char → ℕ × List Char
  | 's' :: 'u' :: 'b' :: rest =>
    let p := countSubs rest
    (p.1 + 1, p.2)
  | l => (0, l)

/-- The part of the heading pattern after `\(sub)*section`: the
optional star, the brace group `([^}]+)`, and the closing brace; `k` is
the number of `sub` repetitions already consumed. -/
def matchSectionAfterKw (k : ℕ) (r2 : List Char) : Option (ℕ × List Char) :=
  let q : ℕ × List Char :=
    match r2 with
    | '*' :: t => (1, t)
    | t => (0, t)
  match q.2 with
  | '{' :: r4 =>
    let title := r4.takeWhile (fun c => c ≠ '}')
    if title.isEmpty then none
    else if title.length < r4.length then
      some (1 + 3 * k + 7 + q.1 + 1 + title.length + 1, title)
    else none
  | _ => none

/-- Matcher for the heading pattern `\\(sub)*section\*?\{([^}]+)\}`
(paper.py line 73); payload is the brace group (the raw title). -/
def matchSectionAt : List Char → Option (ℕ × List Char)
  | [] => none
  | c :: rest =>
    if c = '\\' then
      let p := countSubs rest
      if ("section".toList).isPrefixOf p.2 then
        matchSectionAfterKw p.1 (p.2.drop 7)
      else none
    else none

/-- `list(re.finditer(section_pattern, latex_text))`. -/
def findSectionMatches (t : List Char) : List (ℕ × ℕ × List Char) :=
  findMatchesGoF matchSectionAt t.length t 0

/-- `k` repetitions of the characters `sub`. -/
def repSub : ℕ → List Char
  | 0 => []
  | k + 1 => 's' :: 'u' :: 'b' :: repSub k

/-- The part of a heading marker after the backslash:
`(sub)^k section[*]{title}`. -/
def secTail (k : ℕ) (star : Bool) (title : List Char) : List Char :=
  repSub k ++ ("section".toList ++
    ((if star then ['*'] else []) ++ ('{' :: (title ++ ['}']))))

/-- A heading marker `\(sub)^k section[*]{title}` as a string: the
shape of text matched by the heading pattern. -/
def secMarker (k : ℕ) (star : Bool) (title : List Char) : List Char :=
  '\\' :: secTail k star title

/-! ### The segmenter (`ArxivPaper._parse_latex_sections`) -/

/-- One parsed section: `{"title": ..., "content": ..., "order": ...}`. -/
structure PaperSection where
  title : List Char
  content : List Char
  order : ℕ
deriving DecidableEq

/-- Python slice `t[a:b]` for natural indices. -/
def sliceStr (t : List Char) (a b : ℕ) : List Char := (t.drop a).take (b - a)

/-- The loop over heading matches of `_parse_latex_sections` (paper.py
lines 77-106): clean and validate title, slice raw content up to the
next match (or end of text), clean and validate it, and append with
`order := len(sections)`. -/
def sectionsLoop (t : List Char) :
    List (ℕ × ℕ × List Char) → List PaperSection → List PaperSection
  | [], acc => acc
  | (_, e, rawTitle) :: ms, acc =>
    let nextStart : ℕ :=
      match ms with
      | (s2, _, _) :: _ => s2
      | [] => t.length
    let title := cleanLatexTitle (pyStrip rawTitle)
    if !isValidSectionTitle title then sectionsLoop t ms acc
    else
      let content := cleanLatexContent (pyStrip (sliceStr t e nextStart))
      if !isValidSection content then sectionsLoop t ms acc
      else sectionsLoop t ms (acc ++ [⟨title, content, acc.length⟩])

/-- `ArxivPaper._parse_latex_sections` (paper.py lines 47-108): strip
comments, extract the abstract (emitted when its cleaned content is
truthy, i.e. nonempty), then process heading matches. -/
def parseLatexSections (latex : List Char) : List PaperSection :=
  let t := removeLatexComments latex
  let init : List PaperSection :=
    match extractAbstract t with
    | some a => if a.isEmpty then [] else [⟨"Abstract".toList, a, 0⟩]
    | none => []
  sectionsLoop t (findSectionMatches t) init

/-! ### Relevance Filter (`ArxivPaper.get_relevant_sections`) -/

/-- `ArxivPaper.EXCLUDED_SECTIONS` (paper.py lines 14-18). -/
def EXCLUDED_SECTIONS : List (List Char) :=
  ["references".toList, "bibliography".toList, "appendix".toList,
   "supplementary".toList, "acknowledgments".toList,
   "acknowledgements".toList, "author contributions".toList,
   "funding".toList, "ethics statement".toList, "checklist".toList,
   "supplementary material".toList]

/-- Python `needle in haystack` (substring containment). -/
def containsSub (needle : List Char) : List Char → Bool
  | [] => needle.isEmpty
  | c :: rest => needle.isPrefixOf (c :: rest) || containsSub needle rest

/-- The active exclusion terms: the default set, or the caller's list
lower-cased (paper.py lines 232-235); a custom list replaces the
default entirely. -/
def activeExcludeTerms (excludeList : Option (List (List Char))) : List (List Char) :=
  match excludeList with
  | none => EXCLUDED_SECTIONS
  | some l => l.map pyLower

/-- `ArxivPaper.get_relevant_sections` (paper.py lines 222-245): keep a
section unless its lower-cased title contains some active term as a
substring. -/
def getRelevantSections (sections : List PaperSection)
    (excludeList : Option (List (List Char))) : List PaperSection :=
  sections.filter
    (fun s => !((activeExcludeTerms excludeList).any
      (fun e => containsSub e (pyLower s.title))))

/-! ### LLM-Text Assembler (`ArxivPaper.get_text_for_llm`) -/

def TRUNCATION_MARKER : List Char := "\n\n[Text truncated...]".toList

/-- The `full_text` assembled by `get_text_for_llm` (paper.py lines
259-270): optional metadata abstract header, then
`title\ncontent\n\n` for every default-relevant section. -/
def assembleTextParts (metadataAbstract : Option (List Char))
    (sections : List PaperSection) (includeAbstract : Bool) : List Char :=
  (if includeAbstract then
    match metadataAbstract with
    | some a => "Abstract:\n".toList ++ a ++ "\n\n".toList
    | none => []
  else []) ++
  List.flatten ((getRelevantSections sections none).map
    (fun s => s.title ++ '\n' :: (s.content ++ "\n\n".toList)))

/-- Python slice `l[:m]` for an integer bound (negative bounds drop
from the end). -/
def pySliceTo (m : ℤ) (l : List Char) : List Char :=
  if 0 ≤ m then l.take m.toNat else l.take (l.length - (-m).toNat)

/-- `ArxivPaper.get_text_for_llm` (paper.py lines 247-276): truncate
and append the marker only when `max_chars` is truthy (not `None`, not
`0`) and the assembled text is longer. -/
def getTextForLLM (metadataAbstract : Option (List Char))
    (sections : List PaperSection) (maxChars : Option ℤ)
    (includeAbstract : Bool) : List Char :=
  let full := assembleTextParts metadataAbstract sections includeAbstract
  match maxChars with
  | some m =>
    if m ≠ 0 ∧ (full.length : ℤ) > m then pySliceTo m full ++ TRUNCATION_MARKER
    else full
  | none => full

/-! ### Input Resolver (`_resolve_latex_inputs`, utils/fetcher.py)

The filesystem is modelled as a partial map from path strings to file
contents; `Path.__truediv__` is `/`-joining, and the encoding fallback
chain of the Python code is invisible at this level (reading a found
file yields its contents). The Python recursion has no depth guard and
can diverge on cyclic inputs; the model takes explicit fuel, each unit
of which corresponds to one level of `_resolve_latex_inputs`
recursion. -/

def FileSys : Type := List Char → Option (List Char)

def pathJoin (d f : List Char) : List Char := d ++ '/' :: f

def endsWithTex (f : List Char) : Bool := (".tex".toList).isSuffixOf f

/-- Matcher for `\\input\{([^}]+)\}`; payload is the raw group. -/
def tryInputMatch : List Char → Option (ℕ × List Char)
  | [] => none
  | c :: rest =>
    if c = '\\' then
      if ("input\x7b".toList).isPrefixOf rest then
        let r2 := rest.drop 6
        let nm := r2.takeWhile (fun c => c ≠ '}')
        if nm.isEmpty then none
        else if nm.length < r2.length then some (1 + 6 + nm.length + 1, nm)
        else none
      else none
    else none

/-- Worker for the `re.sub(input_pattern, replace_input, text)` scan,
with explicit fuel. -/
def scanInputsGo (repl : List Char → Option (List Char)) : ℕ → List Char → List Char
  | 0, l => l
  | _, [] => []
  | fuel + 1, c :: rest =>
    match tryInputMatch (c :: rest) with
    | some (n, nm) =>
      (match repl nm with
        | some r => r
        | none => (c :: rest).take n) ++ scanInputsGo repl fuel (rest.drop (n - 1))
    | none => c :: scanInputsGo repl fuel rest

/-- The `re.sub(input_pattern, replace_input, text)` scan: each
`\input{...}` occurrence is replaced by `repl` applied to its group
(already recursively resolved), or kept verbatim when `repl` yields
none. -/
def scanInputs (repl : List Char → Option (List Char)) (l : List Char) : List Char :=
  scanInputsGo repl l.length l

/-- The candidate search of `replace_input` (fetcher.py lines 271-284):
when the name lacks a `.tex` suffix the path `base/name.tex` is tried
*first*, then `base/name`; with the suffix, `base/name` is tried (the
second, identical probe of the Python code is redundant there). -/
def lookupInput (fs : FileSys) (baseDir f : List Char) : Option (List Char) :=
  let firstPath :=
    if endsWithTex f then pathJoin baseDir f
    else pathJoin baseDir (f ++ ".tex".toList)
  match fs firstPath with
  | some content => some content
  | none => fs (pathJoin baseDir f)

/-- `_resolve_latex_inputs` (fetcher.py lines 248-309) with fuel: the
group is stripped, looked up, and the found file's contents are
recursively resolved against the *same* base directory. -/
def resolveLatexInputs (fs : FileSys) : ℕ → List Char → List Char → List Char
  | 0, _, text => text
  | fuel + 1, baseDir, text =>
    scanInputs (fun nm =>
      (lookupInput fs baseDir (pyStrip nm)).map
        (resolveLatexInputs fs fuel baseDir)) text

/-- Directory of a path (drop the last `/`-separated component). -/
def dirname (p : List Char) : List Char :=
  ((p.reverse.dropWhile (fun c => c ≠ '/')).drop 1).reverse

/-- Modelled from the spec (§4.2) for refinement comparison, not from
the code: try `name` as given first, then `name.tex` when the suffix
is missing; returns the resolved path along with the contents. -/
def specLookupInput (fs : FileSys) (baseDir f : List Char) :
    Option (List Char × List Char) :=
  match fs (pathJoin baseDir f) with
  | some content => some (pathJoin baseDir f, content)
  | none =>
    if endsWithTex f then none
    else
      match fs (pathJoin baseDir (f ++ ".tex".toList)) with
      | some content => some (pathJoin baseDir (f ++ ".tex".toList), content)
      | none => none

/-- Modelled from the spec (§4.2) for refinement comparison: like
`resolveLatexInputs` but with the spec's resolution order and with
nested inputs resolved relative to the directory of the file containing
them. -/
def specResolveInputs (fs : FileSys) : ℕ → List Char → List Char → List Char
  | 0, _, text => text
  | fuel + 1, baseDir, text =>
    scanInputs (fun nm =>
      (specLookupInput fs baseDir (pyStrip nm)).map
        (fun pc => specResolveInputs fs fuel (dirname pc.1) pc.2)) text

/-- Concrete filesystem exercising the resolver's candidate order and
base-directory handling: both `d/chap` and `d/chap.tex` exist with
different contents, and `b` resolves differently relative to `d` and to
`d/sub`. -/
def fsC4 : FileSys := fun p =>
  if p = ("d/chap".toList) then some ("A".toList)
  else if p = ("d/chap.tex".toList) then some ("B".toList)
  else if p = ("d/sub/a.tex".toList) then some ("\\input{b}".toList)
  else if p = ("d/b.tex".toList) then some ("R".toList)
  else if p = ("d/sub/b.tex".toList) then some ("S".toList)
  else none

/-! ### Theorems for claims C1 and C2 -/

/-- Evaluation helper: `normalize_metric` on a string whose cleaned form
is `w` and whose digit gate passes. -/
theorem normalize_metric_str_eval (s w : List Char)
    (hw : pyStrip (s.filter (fun c => c ≠ '%')) = w)
    (hg : pyIsdigit (removeFirst '.' w) = true) :
    normalize_metric (RawMetric.str s) =
      (if parseDecimal w < 0 then -1
        else if 1 < parseDecimal w then parseDecimal w / 100
        else parseDecimal w) := by
  simp only [normalize_metric, hw, hg, if_pos]

/-- Evaluation helper: the sentinel path of `normalize_metric` when the
digit gate fails. -/
theorem normalize_metric_str_gate_false (s : List Char)
    (hg : pyIsdigit (removeFirst '.'
      (pyStrip (s.filter (fun c => c ≠ '%')))) = false) :
    normalize_metric (RawMetric.str s) = -1 := by
  simp only [normalize_metric, hg]
  simp

/-- Evaluation helper: `parseDecimal` from the computed digit values. -/
theorem parseDecimal_eq (w : List Char) (a b n : ℕ)
    (ha : natOfDigits (w.takeWhile (fun c => c ≠ '.')) = a)
    (hb : natOfDigits ((w.dropWhile (fun c => c ≠ '.')).drop 1) = b)
    (hn : ((w.dropWhile (fun c => c ≠ '.')).drop 1).length = n) :
    parseDecimal w = (a : ℚ) + (b : ℚ) / (10 : ℚ) ^ n := by
  simp only [parseDecimal, ha, hb, hn]

/-- Shared shape of the final normalization step. -/
theorem normalize_step_range (val : ℚ) (h : val ≤ 100) :
    (if val < 0 then (-1 : ℚ) else if 1 < val then val / 100 else val) = -1 ∨
    (0 ≤ (if val < 0 then (-1 : ℚ) else if 1 < val then val / 100 else val) ∧
      (if val < 0 then (-1 : ℚ) else if 1 < val then val / 100 else val) ≤ 1) := by
  by_cases h0 : val < 0
  · left
    simp [h0]
  · right
    push_neg at h0
    by_cases h1 : 1 < val
    · simp only [if_neg (not_lt.mpr h0), if_pos h1]
      constructor
      · positivity
      · rw [div_le_one (by norm_num)]
        linarith
    · simp only [if_neg (not_lt.mpr h0), if_neg h1]
      push_neg at h1
      exact ⟨h0, h1⟩

/-- C1 (counterexample): the raw number 500 is normalized to 5, which is
neither the sentinel nor in [0,1]. -/
theorem claim_C1_counterexample :
    ¬(normalize_metric (RawMetric.num 500) = -1 ∨
      (0 ≤ normalize_metric (RawMetric.num 500) ∧
        normalize_metric (RawMetric.num 500) ≤ 1)) := by
  have h : normalize_metric (RawMetric.num 500) = 5 := by
    simp only [normalize_metric]
    norm_num
  rw [h]
  norm_num

/-- C1 (amended): whenever the value that reaches the final
normalization step is at most 100, the normalized metric is either the
sentinel `-1` or a fraction in [0,1]. (Parsed values above 100 are
divided by 100 but still exceed 1.) -/
theorem claim_C1_range (v : RawMetric)
    (h : ∀ q : ℚ, parsedVal v = some q → q ≤ 100) :
    normalize_metric v = -1 ∨
      (0 ≤ normalize_metric v ∧ normalize_metric v ≤ 1) := by
  cases v with
  | null => left; rfl
  | str s =>
    simp only [normalize_metric]
    by_cases hg : pyIsdigit (removeFirst '.'
        (pyStrip (s.filter (fun c => c ≠ '%')))) = true
    · simp only [hg, if_pos]
      apply normalize_step_range
      apply h
      simp only [parsedVal, hg, if_pos]
    · simp only [hg]
      simp
  | num q =>
    simp only [normalize_metric]
    apply normalize_step_range
    apply h
    rfl

/-- Witness for `claim_C1_range` at the concrete raw number 1/2. -/
theorem claim_C1_range_witness :
    normalize_metric (RawMetric.num (1/2)) = -1 ∨
      (0 ≤ normalize_metric (RawMetric.num (1/2)) ∧
        normalize_metric (RawMetric.num (1/2)) ≤ 1) := by
  apply claim_C1_range
  intro q hq
  simp only [parsedVal, Option.some.injEq] at hq
  rw [← hq]
  norm_num

/-- C2 (counterexample): the string "5%0" has its interior `%` removed
(the code removes every `%`, not only a trailing one), is parsed as 50
and normalized to 1/2; under the spec's trailing-%-only rule the
remainder "5%0" is not a valid numeral and would map to the sentinel. -/
theorem claim_C2_counterexample :
    normalize_metric (RawMetric.str ("5%0".toList)) = 1/2 ∧
    specNormalizeMetric (RawMetric.str ("5%0".toList)) = -1 ∧
    ((1 : ℚ)/2) ≠ -1 := by
  refine ⟨?_, ?_, by norm_num⟩
  · rw [normalize_metric_str_eval ("5%0".toList) ("50".toList)
      (by decide) (by decide)]
    rw [parseDecimal_eq ("50".toList) 50 0 0 (by decide) (by decide)
      (by decide)]
    norm_num
  · have hg : pyIsdigit (removeFirst '.'
        (specCleanMetricStr ("5%0".toList))) = false := by decide
    simp only [specNormalizeMetric, hg]
    simp

/-- C2 (amended): null maps to the sentinel; a string raw value has
*every* `%` sign removed and surrounding whitespace stripped, and maps
to the sentinel if the remainder fails the digits-with-at-most-one-dot
gate; a negative raw number maps to the sentinel; and the concrete
vectors "85.5%" ↦ 0.855, "0.42" ↦ 0.42, "-5" ↦ sentinel,
"not a number" ↦ sentinel all hold. -/
theorem claim_C2_string_rule :
    normalize_metric RawMetric.null = -1 ∧
    (∀ s : List Char,
      pyIsdigit (removeFirst '.' (pyStrip (s.filter (fun c => c ≠ '%')))) = false →
      normalize_metric (RawMetric.str s) = -1) ∧
    (∀ q : ℚ, q < 0 → normalize_metric (RawMetric.num q) = -1) ∧
    normalize_metric (RawMetric.str ("85.5%".toList)) = 855/1000 ∧
    normalize_metric (RawMetric.str ("0.42".toList)) = 42/100 ∧
    normalize_metric (RawMetric.str ("-5".toList)) = -1 ∧
    normalize_metric (RawMetric.str ("not a number".toList)) = -1 := by
  refine ⟨rfl, ?_, ?_, ?_, ?_, ?_, ?_⟩
  · intro s hs
    exact normalize_metric_str_gate_false s hs
  · intro q hq
    simp only [normalize_metric]
    simp [hq]
  · rw [normalize_metric_str_eval ("85.5%".toList) ("85.5".toList)
      (by decide) (by decide)]
    rw [parseDecimal_eq ("85.5".toList) 85 5 1 (by decide) (by decide)
      (by decide)]
    norm_num
  · rw [normalize_metric_str_eval ("0.42".toList) ("0.42".toList)
      (by decide) (by decide)]
    rw [parseDecimal_eq ("0.42".toList) 0 42 2 (by decide) (by decide)
      (by decide)]
    norm_num
  · exact normalize_metric_str_gate_false ("-5".toList) (by decide)
  · exact normalize_metric_str_gate_false ("not a number".toList)
      (by decide)

/-- Witness for `claim_C2_string_rule`: its conditional conjuncts applied
at the concrete inputs "abc" and -2. -/
theorem claim_C2_string_rule_witness :
    normalize_metric (RawMetric.str ("abc".toList)) = -1 ∧
    normalize_metric (RawMetric.num (-2)) = -1 := by
  exact ⟨claim_C2_string_rule.2.1 ("abc".toList) (by decide),
    claim_C2_string_rule.2.2.1 (-2) (by norm_num)⟩

/-! ### Theorems for claim C3 -/

theorem splitLines_of_no_nl (l : List Char) (h : '\n' ∉ l) :
    splitLines l = [l] := by
  induction l with
  | nil => rfl
  | cons c rest ih =>
    have hc : ¬(c = '\n') := fun hc => h (hc ▸ List.mem_cons_self c rest)
    have hr : '\n' ∉ rest := fun hr => h (List.mem_cons_of_mem c hr)
    simp only [splitLines, if_neg hc, ih hr]

theorem splitLines_ne_nil (t : List Char) : splitLines t ≠ [] := by
  induction t with
  | nil => simp [splitLines]
  | cons c rest ih =>
    by_cases hc : c = '\n'
    · simp [splitLines, hc]
    · simp only [splitLines, if_neg hc]
      rcases hsp : splitLines rest with - | ⟨hd, tl⟩
      · simp
      · simp

theorem splitLines_append_nl (l r : List Char) (h : '\n' ∉ l) :
    splitLines (l ++ '\n' :: r) = l :: splitLines r := by
  induction l with
  | nil => simp [splitLines]
  | cons c rest ih =>
    have hc : ¬(c = '\n') := fun hc => h (hc ▸ List.mem_cons_self c rest)
    have hr : '\n' ∉ rest := fun hr => h (List.mem_cons_of_mem c hr)
    have hih := ih hr
    simp only [List.cons_append, splitLines, if_neg hc]
    rw [List.append_eq, hih]

theorem splitLines_joinLines (ls : List (List Char)) (hne : ls ≠ [])
    (h : ∀ l ∈ ls, '\n' ∉ l) : splitLines (joinLines ls) = ls := by
  induction ls with
  | nil => exact absurd rfl hne
  | cons l rest ih =>
    cases rest with
    | nil =>
      simp only [joinLines]
      exact splitLines_of_no_nl l (h l (List.mem_cons_self l []))
    | cons l2 rest2 =>
      simp only [joinLines]
      rw [splitLines_append_nl l (joinLines (l2 :: rest2))
        (h l (List.mem_cons_self l (l2 :: rest2)))]
      rw [ih (by simp) (fun x hx => h x (List.mem_cons_of_mem l hx))]

theorem splitLines_no_nl (t : List Char) :
    ∀ l ∈ splitLines t, '\n' ∉ l := by
  induction t with
  | nil =>
    intro l hl
    simp only [splitLines, List.mem_singleton] at hl
    subst hl
    simp
  | cons c rest ih =>
    intro l hl
    by_cases hc : c = '\n'
    · simp only [splitLines, if_pos hc] at hl
      rcases List.mem_cons.mp hl with h1 | h2
      · subst h1
        simp
      · exact ih l h2
    · simp only [splitLines, if_neg hc] at hl
      rcases hsp : splitLines rest with - | ⟨hd, tl⟩
      · exact absurd hsp (splitLines_ne_nil rest)
      · rw [hsp] at hl
        rcases List.mem_cons.mp hl with h1 | h2
        · subst h1
          intro hmem
          rcases List.mem_cons.mp hmem with h1 | h2
          · exact hc h1.symm
          · exact ih hd (hsp ▸ List.mem_cons_self hd tl) h2
        · exact ih l (hsp ▸ List.mem_cons_of_mem hd h2)

theorem stripLineComment_no_nl (line : List Char) (h : '\n' ∉ line) :
    '\n' ∉ stripLineComment line := by
  unfold stripLineComment
  rcases hf : line.findIdx? (fun c => c = '%') with - | p
  · exact h
  · by_cases hp : p = 0 ∨ ¬(getElem? line (p-1) = some '\\')
    · simp only [if_pos hp]
      intro hmem
      exact h (List.mem_of_mem_take hmem)
    · simp only [if_neg hp]
      exact h

/-- C3 (counterexample): on the line `a\%b%c` the code keeps the whole
line — it only examines the *first* `%`, which is escaped — while the
claim demands truncation at the first unescaped `%` (position 4),
yielding `a\%b`. -/
theorem claim_C3_counterexample :
    removeLatexComments ("a\\%b%c".toList) = "a\\%b%c".toList ∧
    stripLineComment ("a\\%b%c".toList) = "a\\%b%c".toList ∧
    specStripLine ("a\\%b%c".toList) = "a\\%b".toList ∧
    "a\\%b%c".toList ≠ "a\\%b".toList := by
  refine ⟨by decide, by decide, by decide, by decide⟩

/-- C3 (amended): the stripper maps each line independently (line count
preserved, empty input yields empty output); a line whose first `%` is
unescaped (at position 0 or not preceded by `\`) is truncated at that
`%`; a line with no `%` is unchanged; but a line whose *first* `%` is
escaped is kept entirely intact — later unescaped `%`s are not removed. -/
theorem claim_C3_comment_stripper :
    removeLatexComments [] = [] ∧
    (∀ t : List Char,
      splitLines (removeLatexComments t) = (splitLines t).map stripLineComment) ∧
    (∀ t : List Char,
      (splitLines (removeLatexComments t)).length = (splitLines t).length) ∧
    (∀ line : List Char, line.findIdx? (fun c => c = '%') = none →
      stripLineComment line = line) ∧
    (∀ (line : List Char) (p : ℕ), line.findIdx? (fun c => c = '%') = some p →
      (p = 0 ∨ ¬(getElem? line (p-1) = some '\\')) → stripLineComment line = line.take p) ∧
    (∀ (line : List Char) (p : ℕ), line.findIdx? (fun c => c = '%') = some p →
      p ≠ 0 → getElem? line (p-1) = some '\\' → stripLineComment line = line) := by
  have hmap : ∀ t : List Char,
      splitLines (removeLatexComments t) = (splitLines t).map stripLineComment := by
    intro t
    unfold removeLatexComments
    apply splitLines_joinLines
    · simp [splitLines_ne_nil t]
    · intro l hl
      rcases List.mem_map.mp hl with ⟨x, hx, hxl⟩
      rw [← hxl]
      exact stripLineComment_no_nl x (splitLines_no_nl t x hx)
  refine ⟨rfl, hmap, ?_, ?_, ?_, ?_⟩
  · intro t
    rw [hmap t, List.length_map]
  · intro line h
    simp [stripLineComment, h]
  · intro line p hp hcond
    simp [stripLineComment, hp, hcond]
  · intro line p hp hp0 hbs
    simp only [stripLineComment, hp]
    rw [if_neg]
    push_neg
    exact ⟨hp0, hbs⟩

/-- Witness for `claim_C3_comment_stripper`: its conditional conjuncts
applied at concrete lines. -/
theorem claim_C3_comment_stripper_witness :
    stripLineComment ("abc".toList) = "abc".toList ∧
    stripLineComment ("ab%cd".toList) = "ab".toList ∧
    stripLineComment ("a\\%b".toList) = "a\\%b".toList := by
  refine ⟨?_, ?_, ?_⟩
  · exact claim_C3_comment_stripper.2.2.2.1 ("abc".toList) (by decide)
  · have h := claim_C3_comment_stripper.2.2.2.2.1 ("ab%cd".toList) 2
      (by decide) (by decide)
    rw [h]
    decide
  · exact claim_C3_comment_stripper.2.2.2.2.2 ("a\\%b".toList) 2
      (by decide) (by decide) (by decide)

/-! ### Theorems for claims C9 and C10 -/

/-- Unfolding of `getTextForLLM` at a present budget. -/
theorem getTextForLLM_some (metadataAbstract : Option (List Char))
    (sections : List PaperSection) (includeAbstract : Bool) (m : ℤ) :
    getTextForLLM metadataAbstract sections (some m) includeAbstract =
      if m ≠ 0 ∧ ((assembleTextParts metadataAbstract sections includeAbstract).length : ℤ) > m
      then pySliceTo m (assembleTextParts metadataAbstract sections includeAbstract)
        ++ TRUNCATION_MARKER
      else assembleTextParts metadataAbstract sections includeAbstract := rfl

/-- C9: with a positive character budget, an assembled text longer than
the budget is cut to exactly the budget and the literal truncation
marker is appended (total length = budget + marker length, and the
result ends with the marker text); an assembled text within the budget
is returned unchanged. -/
theorem claim_C9_truncation (metadataAbstract : Option (List Char))
    (sections : List PaperSection) (includeAbstract : Bool) (m : ℤ)
    (hm : 0 < m) :
    ((((assembleTextParts metadataAbstract sections includeAbstract).length : ℤ) > m →
      getTextForLLM metadataAbstract sections (some m) includeAbstract =
        (assembleTextParts metadataAbstract sections includeAbstract).take m.toNat
          ++ TRUNCATION_MARKER ∧
      ((getTextForLLM metadataAbstract sections (some m) includeAbstract).length : ℤ) =
        m + TRUNCATION_MARKER.length ∧
      ("[Text truncated...]".toList) <:+
        getTextForLLM metadataAbstract sections (some m) includeAbstract) ∧
    (((assembleTextParts metadataAbstract sections includeAbstract).length : ℤ) ≤ m →
      getTextForLLM metadataAbstract sections (some m) includeAbstract =
        assembleTextParts metadataAbstract sections includeAbstract)) := by
  constructor
  · intro hgt
    have hcond : m ≠ 0 ∧
        ((assembleTextParts metadataAbstract sections includeAbstract).length : ℤ) > m :=
      ⟨by omega, hgt⟩
    have heq : getTextForLLM metadataAbstract sections (some m) includeAbstract =
        (assembleTextParts metadataAbstract sections includeAbstract).take m.toNat
          ++ TRUNCATION_MARKER := by
      rw [getTextForLLM_some, if_pos hcond]
      unfold pySliceTo
      rw [if_pos hm.le]
    have hlen : m.toNat ≤ (assembleTextParts metadataAbstract sections includeAbstract).length := by
      omega
    refine ⟨heq, ?_, ?_⟩
    · rw [heq, List.length_append, List.length_take]
      have hmin : min m.toNat
          (assembleTextParts metadataAbstract sections includeAbstract).length = m.toNat := by
        omega
      rw [hmin]
      push_cast
      omega
    · rw [heq]
      have h1 : ("[Text truncated...]".toList) <:+ TRUNCATION_MARKER := by decide
      exact h1.trans (List.suffix_append _ _)
  · intro hle
    rw [getTextForLLM_some, if_neg]
    push_neg
    intro _
    omega

/-- Witness for `claim_C9_truncation`: a 12-character assembled text with
budget 5 is cut to 5 characters plus the marker. -/
theorem claim_C9_truncation_witness :
    getTextForLLM none [⟨"Intro".toList, "Hello".toList, 0⟩] (some 5) false =
      ("Intro".toList) ++ TRUNCATION_MARKER := by
  have h := ((claim_C9_truncation none [⟨"Intro".toList, "Hello".toList, 0⟩]
    false 5 (by norm_num)).1 (by decide)).1
  rw [h]
  decide

/-- C10: a character budget of exactly 0 is falsy in the Python
truncation guard, so no truncation happens: the full assembled text is
returned unchanged, the same as with no budget at all. -/
theorem claim_C10_zero_budget (metadataAbstract : Option (List Char))
    (sections : List PaperSection) (includeAbstract : Bool) :
    getTextForLLM metadataAbstract sections (some 0) includeAbstract =
      assembleTextParts metadataAbstract sections includeAbstract ∧
    getTextForLLM metadataAbstract sections (some 0) includeAbstract =
      getTextForLLM metadataAbstract sections none includeAbstract := by
  constructor
  · rw [getTextForLLM_some, if_neg]
    simp
  · rw [getTextForLLM_some, if_neg]
    · rfl
    · simp

/-! ### Theorems for claim C8 -/

/-- C8: a section is excluded iff its lower-cased title contains some
active term as a substring; a caller-supplied list fully replaces the
default (after lower-casing its entries, per the code); under the
default list, "References"-titled sections are always excluded and
"Related Work"-titled sections always retained; the result is an
order-preserving sublist of the input. -/
theorem claim_C8_relevance (sections : List PaperSection)
    (excludeList : Option (List (List Char))) :
    (getRelevantSections sections excludeList).Sublist sections ∧
    (∀ s : PaperSection, s ∈ getRelevantSections sections excludeList ↔
      (s ∈ sections ∧ ∀ e ∈ activeExcludeTerms excludeList,
        containsSub e (pyLower s.title) = false)) ∧
    (∀ s : PaperSection, s ∈ sections → s.title = "References".toList →
      s ∉ getRelevantSections sections none) ∧
    (∀ s : PaperSection, s ∈ sections → s.title = "Related Work".toList →
      s ∈ getRelevantSections sections none) := by
  refine ⟨List.filter_sublist _, ?_, ?_, ?_⟩
  · intro s
    unfold getRelevantSections
    rw [List.mem_filter]
    constructor
    · rintro ⟨hmem, hcond⟩
      refine ⟨hmem, ?_⟩
      intro e he
      rw [Bool.not_eq_true'] at hcond
      rcases hc : containsSub e (pyLower s.title) with - | -
      · rfl
      · exact absurd (List.any_eq_true.mpr ⟨e, he, hc⟩)
          (by rw [hcond]; exact Bool.false_ne_true)
    · rintro ⟨hmem, hcond⟩
      refine ⟨hmem, ?_⟩
      rw [Bool.not_eq_true']
      rcases ha : (activeExcludeTerms excludeList).any
          (fun e => containsSub e (pyLower s.title)) with - | -
      · rfl
      · rcases List.any_eq_true.mp ha with ⟨e, he, hc⟩
        rw [hcond e he] at hc
        exact absurd hc Bool.false_ne_true
  · intro s hmem ht hin
    unfold getRelevantSections at hin
    rw [List.mem_filter] at hin
    have hany : (activeExcludeTerms none).any
        (fun e => containsSub e (pyLower s.title)) = true := by
      apply List.any_eq_true.mpr
      refine ⟨"references".toList, by decide, ?_⟩
      rw [ht]
      decide
    rw [hany] at hin
    exact absurd hin.2 (by decide)
  · intro s hmem ht
    unfold getRelevantSections
    rw [List.mem_filter]
    refine ⟨hmem, ?_⟩
    rw [ht]
    decide

/-- Witness for `claim_C8_relevance`: the default filter on a concrete
two-section list drops "References" and keeps "Related Work". -/
theorem claim_C8_relevance_witness :
    (⟨"References".toList, [], 0⟩ : PaperSection) ∉
      getRelevantSections
        [⟨"References".toList, [], 0⟩, ⟨"Related Work".toList, [], 1⟩] none ∧
    (⟨"Related Work".toList, [], 1⟩ : PaperSection) ∈
      getRelevantSections
        [⟨"References".toList, [], 0⟩, ⟨"Related Work".toList, [], 1⟩] none := by
  constructor
  · exact (claim_C8_relevance
      [⟨"References".toList, [], 0⟩, ⟨"Related Work".toList, [], 1⟩] none).2.2.1
      _ (by simp) rfl
  · exact (claim_C8_relevance
      [⟨"References".toList, [], 0⟩, ⟨"Related Work".toList, [], 1⟩] none).2.2.2
      _ (by simp) rfl

/-! ### Theorems for claims C7 and C6 -/

/-- `sectionsLoop` only appends to its accumulator. -/
theorem sectionsLoop_append (t : List Char) (ms : List (ℕ × ℕ × List Char)) :
    ∀ acc : List PaperSection, ∃ l, sectionsLoop t ms acc = acc ++ l := by
  induction ms with
  | nil => intro acc; exact ⟨[], by simp [sectionsLoop]⟩
  | cons m ms ih =>
    intro acc
    have ihx : ∀ (acc : List PaperSection) (x : PaperSection),
        ∃ l, sectionsLoop t ms (acc ++ [x]) = acc ++ l := by
      intro acc x
      rcases ih (acc ++ [x]) with ⟨l, hl⟩
      exact ⟨[x] ++ l, by rw [hl, List.append_assoc]⟩
    obtain ⟨s, e, rawTitle⟩ := m
    simp only [sectionsLoop]
    split
    · exact ih acc
    · split
      · exact ih acc
      · exact ihx acc _

/-- Each accepted section is appended with `order = len(sections)`, so
the accumulated orders stay `0, 1, 2, ...`. -/
theorem sectionsLoop_orders (t : List Char) (ms : List (ℕ × ℕ × List Char)) :
    ∀ acc : List PaperSection,
      acc.map PaperSection.order = List.range acc.length →
      (sectionsLoop t ms acc).map PaperSection.order =
        List.range (sectionsLoop t ms acc).length := by
  induction ms with
  | nil => intro acc h; simpa [sectionsLoop] using h
  | cons m ms ih =>
    intro acc h
    obtain ⟨s, e, rawTitle⟩ := m
    simp only [sectionsLoop]
    split
    · exact ih acc h
    · split
      · exact ih acc h
      · apply ih
        rw [List.map_append, h, List.length_append]
        simp [List.range_succ]

/-- The emitted `order` values of a parse are exactly `0, 1, 2, ...`. -/
theorem parseLatexSections_orders (latex : List Char) :
    (parseLatexSections latex).map PaperSection.order =
      List.range (parseLatexSections latex).length := by
  unfold parseLatexSections
  apply sectionsLoop_orders
  rcases h : extractAbstract (removeLatexComments latex) with - | a
  · simp
  · by_cases ha : a.isEmpty
    · simp [ha]
    · simp only [ha, Bool.false_eq_true, if_false]
      rfl

/-- C7: for every parsed document, the `order` values of the emitted
section sequence are exactly `0, 1, 2, ...` in emission order —
contiguous and strictly increasing; rejected candidates consume no
order value (each accepted section gets `order = len(sections)` at
append time). -/
theorem claim_C7_order_contiguous (latex : List Char) :
    (parseLatexSections latex).map PaperSection.order =
      List.range (parseLatexSections latex).length :=
  parseLatexSections_orders latex

/-- C6 (counterexample): a document whose abstract environment holds
only the 5-character text "short" still yields an "Abstract" section —
the code gates the abstract only on nonemptiness, not on the
section-content validity check, which "short" fails. -/
theorem claim_C6_counterexample :
    parseLatexSections ("\\begin{abstract}short\\end{abstract}".toList) =
      [⟨"Abstract".toList, "short".toList, 0⟩] ∧
    isValidSection ("short".toList) = false := by
  exact ⟨by decide, by decide⟩

/-- C6 (amended): at most one section ever carries order 0; and whenever
the cleaned abstract content is *nonempty* (the code's actual gate,
weaker than the claimed validity check) it is emitted as the first
section, titled "Abstract" with order 0, and it is the only section
titled "Abstract" at order 0 — in particular a well-formed abstract of
≥ 50 meaningful characters yields exactly one such section. -/
theorem claim_C6_abstract_emission (latex : List Char) :
    ((parseLatexSections latex).countP (fun s => s.order == 0) ≤ 1) ∧
    (∀ a : List Char, extractAbstract (removeLatexComments latex) = some a →
      a ≠ [] →
      (parseLatexSections latex).head? = some ⟨"Abstract".toList, a, 0⟩ ∧
      (parseLatexSections latex).countP
        (fun s => s.title == "Abstract".toList && s.order == 0) = 1) := by
  constructor
  · have horders := parseLatexSections_orders latex
    have h1 : (parseLatexSections latex).countP (fun s => s.order == 0)
        = ((parseLatexSections latex).map PaperSection.order).countP
            (fun n => n == 0) := by
      rw [List.countP_map]
      rfl
    rw [h1, horders]
    exact List.nodup_iff_count_le_one.mp (List.nodup_range _) 0
  · intro a ha hne
    have hae : a.isEmpty = false := by
      cases a with
      | nil => exact absurd rfl hne
      | cons c l => rfl
    have hparse : parseLatexSections latex =
        sectionsLoop (removeLatexComments latex)
          (findSectionMatches (removeLatexComments latex))
          [⟨"Abstract".toList, a, 0⟩] := by
      simp only [parseLatexSections]
      rw [ha]
      simp [hae]
    obtain ⟨l, hl⟩ := sectionsLoop_append (removeLatexComments latex)
      (findSectionMatches (removeLatexComments latex)) [⟨"Abstract".toList, a, 0⟩]
    have hcons : parseLatexSections latex = ⟨"Abstract".toList, a, 0⟩ :: l := by
      rw [hparse, hl]
      rfl
    constructor
    · rw [hcons]
      rfl
    · have horders := parseLatexSections_orders latex
      rw [hcons] at horders
      rw [List.map_cons, List.length_cons, List.range_succ_eq_map] at horders
      have htail : l.map PaperSection.order = (List.range l.length).map Nat.succ := by
        injection horders
      rw [hcons, List.countP_cons]
      have hzero : l.countP
          (fun s => s.title == "Abstract".toList && s.order == 0) = 0 := by
        apply List.countP_eq_zero.mpr
        intro x hx
        have hmem : PaperSection.order x ∈ l.map PaperSection.order :=
          List.mem_map_of_mem _ hx
        rw [htail] at hmem
        rcases List.mem_map.mp hmem with ⟨n, -, hn⟩
        simp only [Bool.and_eq_true, beq_iff_eq]
        rintro ⟨-, h0⟩
        omega
      rw [hzero]
      simp

/-- Witness for `claim_C6_abstract_emission`: a concrete document with a
71-character abstract yields it as the unique "Abstract" section at
order 0. -/
theorem claim_C6_abstract_emission_witness :
    (parseLatexSections
      ("\\begin{abstract}This abstract easily has enough characters to be meaningful for tests.\\end{abstract}".toList)).head? =
      some ⟨"Abstract".toList,
        ("This abstract easily has enough characters to be meaningful for tests.").toList, 0⟩ ∧
    (parseLatexSections
      ("\\begin{abstract}This abstract easily has enough characters to be meaningful for tests.\\end{abstract}".toList)).countP
      (fun s => s.title == "Abstract".toList && s.order == 0) = 1 := by
  exact (claim_C6_abstract_emission _).2 _ (by decide) (by decide)

/-! ### Theorems for claim C4 -/

theorem isPrefixOf_append_self (p r : List Char) :
    p.isPrefixOf (p ++ r) = true := by
  induction p with
  | nil => simp [List.isPrefixOf]
  | cons c p ih => simp [List.isPrefixOf, ih]

theorem takeWhile_append_brace (t rest : List Char) (h : '}' ∉ t) :
    (t ++ ('}' :: rest)).takeWhile (fun c => c ≠ '}') = t := by
  induction t with
  | nil =>
    rw [List.nil_append, List.takeWhile_cons_of_neg]
    simp
  | cons c t ih =>
    have hc : ¬(c = '}') := fun hc => h (hc ▸ List.mem_cons_self c t)
    have ht : '}' ∉ t := fun ht => h (List.mem_cons_of_mem c ht)
    rw [List.cons_append, List.takeWhile_cons_of_pos (by simp [hc]), ih ht]

theorem scanInputsGo_nil (repl : List Char → Option (List Char)) (fuel : ℕ) :
    scanInputsGo repl fuel [] = [] := by
  cases fuel <;> rfl

/-- The input matcher on a text that is exactly an `\input{name}`
command followed by anything. -/
theorem tryInputMatch_eval (name rest : List Char) (h1 : name ≠ [])
    (h2 : '}' ∉ name) :
    tryInputMatch ('\\' :: ("input\x7b".toList ++ (name ++ ('}' :: rest)))) =
      some (1 + 6 + name.length + 1, name) := by
  have hpre : ("input\x7b".toList).isPrefixOf
      ("input\x7b".toList ++ (name ++ ('}' :: rest))) = true :=
    isPrefixOf_append_self _ _
  have htw : (name ++ ('}' :: rest)).takeWhile (fun c => c ≠ '}') = name :=
    takeWhile_append_brace name rest h2
  have hie : name.isEmpty = false := by
    cases name with
    | nil => exact absurd rfl h1
    | cons c l => rfl
  have hlt : name.length < (name ++ ('}' :: rest)).length := by
    simp
  simp only [tryInputMatch, if_pos rfl, hpre, if_true]
  have hdrop : ("input\x7b".toList ++ (name ++ ('}' :: rest))).drop 6 =
      name ++ ('}' :: rest) := rfl
  rw [hdrop, htw]
  simp [hie, hlt]

/-- The scan on a text that is exactly one `\input{name}` command. -/
theorem scanInputs_single (repl : List Char → Option (List Char))
    (name : List Char) (h1 : name ≠ []) (h2 : '}' ∉ name) :
    scanInputs repl ('\\' :: ("input\x7b".toList ++ (name ++ ['}']))) =
      (match repl name with
        | some r => r
        | none => '\\' :: ("input\x7b".toList ++ (name ++ ['}']))) := by
  have hm := tryInputMatch_eval name [] h1 h2
  have hlen : ('\\' :: ("input\x7b".toList ++ (name ++ ['}']))).length
      = (7 + name.length) + 1 := by
    simp
    omega
  unfold scanInputs
  rw [hlen]
  simp only [scanInputsGo, hm]
  have hdrop : ("input\x7b".toList ++ (name ++ ['}'])).drop
      (1 + 6 + name.length + 1 - 1) = [] := by
    apply List.drop_eq_nil_of_le
    simp
    omega
  rw [hdrop, scanInputsGo_nil, List.append_nil]
  rcases hr : repl name with - | r
  · simp only []
    apply List.take_of_length_le
    simp
    omega
  · rfl

/-- C4 (amended): for a text consisting of an `\input{name}` command,
the resolver tries `base/name.tex` *first* when `name` lacks the
`.tex` suffix and `base/name` second (with the suffix, `base/name`
only); a found file's contents are recursively resolved against the
*same* base directory (the directory is not updated for nested
inclusions); when no candidate exists the original `\input{...}` text
is returned unmodified. -/
theorem claim_C4_resolution (fs : FileSys) (baseDir name : List Char)
    (fuel : ℕ) (h1 : name ≠ []) (h2 : '}' ∉ name) :
    resolveLatexInputs fs (fuel + 1) baseDir
        ('\\' :: ("input\x7b".toList ++ (name ++ ['}']))) =
      (if endsWithTex (pyStrip name) then
        match fs (pathJoin baseDir (pyStrip name)) with
        | some content => resolveLatexInputs fs fuel baseDir content
        | none => '\\' :: ("input\x7b".toList ++ (name ++ ['}']))
      else
        match fs (pathJoin baseDir (pyStrip name ++ (".tex".toList))) with
        | some content => resolveLatexInputs fs fuel baseDir content
        | none =>
          match fs (pathJoin baseDir (pyStrip name)) with
          | some content => resolveLatexInputs fs fuel baseDir content
          | none => '\\' :: ("input\x7b".toList ++ (name ++ ['}']))) := by
  have hs := scanInputs_single
    (fun nm => (lookupInput fs baseDir (pyStrip nm)).map
      (resolveLatexInputs fs fuel baseDir)) name h1 h2
  show scanInputs _ _ = _
  rw [hs]
  unfold lookupInput
  rcases ht : endsWithTex (pyStrip name) with - | -
  · simp only [ht, Bool.false_eq_true, if_false]
    rcases hfs1 : fs (pathJoin baseDir (pyStrip name ++ (".tex".toList)))
        with - | content
    · rcases hfs2 : fs (pathJoin baseDir (pyStrip name)) with - | content2 <;>
        simp [hfs1, hfs2]
    · simp [hfs1]
  · simp only [ht, if_true]
    rcases hfs : fs (pathJoin baseDir (pyStrip name)) with - | content <;>
      simp [hfs]

/-- Witness for `claim_C4_resolution`: resolving `\input{w}` against a
one-file filesystem holding `d/w.tex` inlines that file's contents. -/
theorem claim_C4_resolution_witness :
    resolveLatexInputs
      (fun p => if p = ("d/w.tex".toList) then some ("W".toList) else none) 1
      ("d".toList) ('\\' :: ("input\x7b".toList ++ (("w".toList) ++ ['}']))) =
      "W".toList := by
  have h := claim_C4_resolution
    (fun p => if p = ("d/w.tex".toList) then some ("W".toList) else none)
    ("d".toList) ("w".toList) 0 (by decide) (by decide)
  rw [h]
  decide

/-- C4 (counterexample): with both `d/chap` (contents "A") and
`d/chap.tex` (contents "B") present the code reads `chap.tex`, not the
claimed as-given name; and for the nested `\input{b}` inside
`d/sub/a.tex` the code resolves `b` against the root directory `d`
("R") instead of the including file's directory `d/sub` ("S"): the code
yields "BR" where the claimed resolution yields "AS". -/
theorem claim_C4_counterexample :
    resolveLatexInputs fsC4 3 ("d".toList)
      ("\\input{chap}\\input{sub/a}".toList) = "BR".toList ∧
    specResolveInputs fsC4 3 ("d".toList)
      ("\\input{chap}\\input{sub/a}".toList) = "AS".toList ∧
    ("BR".toList : List Char) ≠ ("AS".toList) := by
  exact ⟨by decide, by decide, by decide⟩

/-! ### Theorems for claim C5 -/

theorem repSub_length (k : ℕ) : (repSub k).length = 3 * k := by
  induction k with
  | zero => rfl
  | succ k ih =>
    simp only [repSub, List.length_cons, ih]
    omega

theorem secTail_length (k : ℕ) (star : Bool) (title : List Char) :
    (secTail k star title).length =
      3 * k + 7 + (if star then 1 else 0) + 1 + title.length + 1 := by
  cases star <;>
    simp [secTail, repSub_length] <;> omega

/-- The greedy `(sub)*` consumes exactly the `sub` repetitions in front
of the literal `section`. -/
theorem countSubs_repSub (k : ℕ) (y : List Char) :
    countSubs (repSub k ++ ("section".toList ++ y)) =
      (k, "section".toList ++ y) := by
  induction k with
  | zero => rfl
  | succ k ih =>
    show countSubs ('s' :: 'u' :: 'b' :: (repSub k ++ ("section".toList ++ y))) = _
    simp only [countSubs, ih]

theorem matchSectionAt_none (c : Char) (l : List Char) (hc : ¬(c = '\\')) :
    matchSectionAt (c :: l) = none := by
  simp [matchSectionAt, hc]

/-- The heading matcher accepts every marker `\(sub)^k section[*]{t}`,
for every nesting depth `k`, consuming exactly the marker. -/
theorem matchSectionAt_marker (k : ℕ) (star : Bool) (t rest : List Char)
    (h1 : t ≠ []) (h2 : '}' ∉ t) :
    matchSectionAt ('\\' :: (secTail k star t ++ rest)) =
      some ((secTail k star t).length + 1, t) := by
  have hshape : secTail k star t ++ rest =
      repSub k ++ ("section".toList ++
        ((if star then ['*'] else []) ++ ('{' :: (t ++ ('}' :: rest))))) := by
    simp [secTail, List.append_assoc]
  have hie : t.isEmpty = false := by
    cases t with
    | nil => exact absurd rfl h1
    | cons c l => rfl
  have htw : (t ++ ('}' :: rest)).takeWhile (fun c => c ≠ '}') = t :=
    takeWhile_append_brace t rest h2
  have hlt : t.length < (t ++ ('}' :: rest)).length := by simp
  rw [hshape]
  simp only [matchSectionAt, if_pos rfl]
  rw [countSubs_repSub]
  simp only [isPrefixOf_append_self, if_true]
  have hdrop : ("section".toList ++
      ((if star then ['*'] else []) ++ ('{' :: (t ++ ('}' :: rest))))).drop 7 =
      (if star then ['*'] else []) ++ ('{' :: (t ++ ('}' :: rest))) := rfl
  rw [hdrop]
  have hlen : (secTail k star t).length + 1 =
      1 + 3 * k + 7 + (if star then 1 else 0) + 1 + t.length + 1 := by
    rw [secTail_length]
    omega
  have hne : ¬(((t ++ ('}' :: rest)).takeWhile (fun c => c ≠ '}')).isEmpty = true) := by
    rw [htw, hie]
    exact Bool.false_ne_true
  cases star with
  | false =>
    show matchSectionAfterKw k ('{' :: (t ++ ('}' :: rest))) = _
    have hred : matchSectionAfterKw k ('{' :: (t ++ ('}' :: rest))) =
        (if ((t ++ ('}' :: rest)).takeWhile (fun c => c ≠ '}')).isEmpty then none
         else if ((t ++ ('}' :: rest)).takeWhile (fun c => c ≠ '}')).length <
             (t ++ ('}' :: rest)).length then
           some (1 + 3 * k + 7 + 0 + 1 +
             ((t ++ ('}' :: rest)).takeWhile (fun c => c ≠ '}')).length + 1,
             (t ++ ('}' :: rest)).takeWhile (fun c => c ≠ '}'))
         else none) := rfl
    rw [hred, if_neg hne, htw, if_pos hlt, hlen]
    norm_num
  | true =>
    show matchSectionAfterKw k ('*' :: '{' :: (t ++ ('}' :: rest))) = _
    have hred : matchSectionAfterKw k ('*' :: '{' :: (t ++ ('}' :: rest))) =
        (if ((t ++ ('}' :: rest)).takeWhile (fun c => c ≠ '}')).isEmpty then none
         else if ((t ++ ('}' :: rest)).takeWhile (fun c => c ≠ '}')).length <
             (t ++ ('}' :: rest)).length then
           some (1 + 3 * k + 7 + 1 + 1 +
             ((t ++ ('}' :: rest)).takeWhile (fun c => c ≠ '}')).length + 1,
             (t ++ ('}' :: rest)).takeWhile (fun c => c ≠ '}'))
         else none) := rfl
    rw [hred, if_neg hne, htw, if_pos hlt, hlen]
    norm_num

/-- Fuel irrelevance for the match scanner, once the fuel covers the
text length. -/
theorem findMatchesGoF_fuel (f : List Char → Option (ℕ × List Char)) :
    ∀ (fuel₁ : ℕ) (l : List Char) (pos fuel₂ : ℕ),
      l.length ≤ fuel₁ → l.length ≤ fuel₂ →
      findMatchesGoF f fuel₁ l pos = findMatchesGoF f fuel₂ l pos := by
  intro fuel₁
  induction fuel₁ with
  | zero =>
    intro l pos fuel₂ hl1 hl2
    have hnil : l = [] := by
      cases l with
      | nil => rfl
      | cons c rest => simp at hl1
    subst hnil
    cases fuel₂ <;> rfl
  | succ fuel ih =>
    intro l pos fuel₂ hl1 hl2
    cases l with
    | nil => cases fuel₂ <;> rfl
    | cons c rest =>
      cases fuel₂ with
      | zero => simp at hl2
      | succ fuel₂ =>
        have hrest : rest.length ≤ fuel := by
          simp only [List.length_cons] at hl1
          omega
        have hrest₂ : rest.length ≤ fuel₂ := by
          simp only [List.length_cons] at hl2
          omega
        simp only [findMatchesGoF]
        rcases hf : f (c :: rest) with - | ⟨n, a⟩
        · exact ih rest (pos + 1) fuel₂ hrest hrest₂
        · by_cases hn : 0 < n
          · simp only [if_pos hn]
            have hd : (rest.drop (n - 1)).length ≤ fuel := by
              rw [List.length_drop]
              omega
            have hd₂ : (rest.drop (n - 1)).length ≤ fuel₂ := by
              rw [List.length_drop]
              omega
            rw [ih (rest.drop (n - 1)) (pos + n) fuel₂ hd hd₂]
          · simp only [if_neg hn]
            exact ih rest (pos + 1) fuel₂ hrest hrest₂

/-- One match step of the scanner. -/
theorem findMatchesGoF_cons_match (f : List Char → Option (ℕ × List Char))
    (fuel : ℕ) (c : Char) (tl : List Char) (pos n : ℕ) (a : List Char)
    (hm : f (c :: tl) = some (n, a)) (hn : 0 < n) :
    findMatchesGoF f (fuel + 1) (c :: tl) pos =
      (pos, pos + n, a) :: findMatchesGoF f fuel (tl.drop (n - 1)) (pos + n) := by
  simp only [findMatchesGoF, hm, if_pos hn]

/-- Scanning backslash-free text finds no heading and just advances the
position. -/
theorem findMatchesGoF_skip (C : List Char) (h : '\\' ∉ C) :
    ∀ (rest : List Char) (pos fuel : ℕ), C.length + rest.length ≤ fuel →
      findMatchesGoF matchSectionAt fuel (C ++ rest) pos =
        findMatchesGoF matchSectionAt fuel rest (pos + C.length) := by
  induction C with
  | nil => intro rest pos fuel hf; simp
  | cons c C ih =>
    intro rest pos fuel hf
    have hc : ¬(c = '\\') := fun hc => h (hc ▸ List.mem_cons_self c C)
    have hC : '\\' ∉ C := fun hC => h (List.mem_cons_of_mem c hC)
    cases fuel with
    | zero => simp at hf
    | succ fuel =>
      rw [List.cons_append]
      have hstep : findMatchesGoF matchSectionAt (fuel + 1) (c :: (C ++ rest)) pos
          = findMatchesGoF matchSectionAt fuel (C ++ rest) (pos + 1) := by
        simp only [findMatchesGoF, matchSectionAt_none c _ hc]
      rw [hstep, ih hC rest (pos + 1) fuel (by simp only [List.length_cons] at hf; omega)]
      rw [findMatchesGoF_fuel matchSectionAt fuel rest (pos + 1 + C.length) (fuel + 1)
        (by simp only [List.length_cons] at hf; omega) (by simp only [List.length_cons] at hf; omega)]
      congr 1
      simp only [List.length_cons]
      omega

/-- Scanning backslash-free text yields no matches at all. -/
theorem findMatchesGoF_no_bs (C : List Char) (h : '\\' ∉ C) (pos fuel : ℕ)
    (hf : C.length ≤ fuel) :
    findMatchesGoF matchSectionAt fuel C pos = [] := by
  have hs := findMatchesGoF_skip C h [] pos fuel (by simpa using hf)
  rw [List.append_nil] at hs
  rw [hs]
  cases fuel <;> rfl

/-- C5 (amended): the Section Segmenter's heading scanner recognizes
`\(sub)^k section{...}` and `\(sub)^k section*{...}` for *every*
nesting depth `k` — including `\subsubsection` and deeper — and the raw
content of each recognized section spans from the end of its heading
match to the start of the next heading match, or to the end of the
document for the last one. -/
theorem claim_C5_markers (k1 k2 : ℕ) (st1 st2 : Bool) (t1 t2 c1 c2 : List Char)
    (h1 : t1 ≠ []) (h2 : '}' ∉ t1) (h3 : t2 ≠ []) (h4 : '}' ∉ t2)
    (h5 : '\\' ∉ c1) (h6 : '\\' ∉ c2) :
    findSectionMatches
        (secMarker k1 st1 t1 ++ (c1 ++ (secMarker k2 st2 t2 ++ c2))) =
      [(0, (secMarker k1 st1 t1).length, t1),
       ((secMarker k1 st1 t1).length + c1.length,
        (secMarker k1 st1 t1).length + c1.length + (secMarker k2 st2 t2).length,
        t2)] ∧
    sliceStr (secMarker k1 st1 t1 ++ (c1 ++ (secMarker k2 st2 t2 ++ c2)))
      (secMarker k1 st1 t1).length
      ((secMarker k1 st1 t1).length + c1.length) = c1 ∧
    sliceStr (secMarker k1 st1 t1 ++ (c1 ++ (secMarker k2 st2 t2 ++ c2)))
      ((secMarker k1 st1 t1).length + c1.length + (secMarker k2 st2 t2).length)
      (secMarker k1 st1 t1 ++ (c1 ++ (secMarker k2 st2 t2 ++ c2))).length = c2 := by
  refine ⟨?_, ?_, ?_⟩
  · -- the match list
    show findMatchesGoF matchSectionAt
      (secMarker k1 st1 t1 ++ (c1 ++ (secMarker k2 st2 t2 ++ c2))).length
      (secMarker k1 st1 t1 ++ (c1 ++ (secMarker k2 st2 t2 ++ c2))) 0 = _
    have hdoc : secMarker k1 st1 t1 ++ (c1 ++ (secMarker k2 st2 t2 ++ c2)) =
        '\\' :: (secTail k1 st1 t1 ++ (c1 ++ (secMarker k2 st2 t2 ++ c2))) := rfl
    have hlen1 : (secMarker k1 st1 t1 ++ (c1 ++ (secMarker k2 st2 t2 ++ c2))).length
        = (secTail k1 st1 t1 ++ (c1 ++ (secMarker k2 st2 t2 ++ c2))).length + 1 := by
      rw [hdoc]
      rfl
    rw [hlen1, hdoc]
    rw [findMatchesGoF_cons_match matchSectionAt
      (secTail k1 st1 t1 ++ (c1 ++ (secMarker k2 st2 t2 ++ c2))).length '\\'
      (secTail k1 st1 t1 ++ (c1 ++ (secMarker k2 st2 t2 ++ c2))) 0
      ((secTail k1 st1 t1).length + 1) t1
      (matchSectionAt_marker k1 st1 t1 (c1 ++ (secMarker k2 st2 t2 ++ c2)) h1 h2)
      (by omega)]
    have hdrop1 : (secTail k1 st1 t1 ++ (c1 ++ (secMarker k2 st2 t2 ++ c2))).drop
        ((secTail k1 st1 t1).length + 1 - 1) = c1 ++ (secMarker k2 st2 t2 ++ c2) := by
      have h11 : (secTail k1 st1 t1).length + 1 - 1 = (secTail k1 st1 t1).length := rfl
      rw [h11, List.drop_left]
    rw [hdrop1]
    rw [findMatchesGoF_skip c1 h5 (secMarker k2 st2 t2 ++ c2)
      (0 + ((secTail k1 st1 t1).length + 1))
      (secTail k1 st1 t1 ++ (c1 ++ (secMarker k2 st2 t2 ++ c2))).length
      (by simp)]
    rw [findMatchesGoF_fuel matchSectionAt
      (secTail k1 st1 t1 ++ (c1 ++ (secMarker k2 st2 t2 ++ c2))).length
      (secMarker k2 st2 t2 ++ c2)
      (0 + ((secTail k1 st1 t1).length + 1) + c1.length)
      ((secTail k2 st2 t2 ++ c2).length + 1)
      (by simp [secMarker]; omega)
      (by simp [secMarker])]
    have hdoc2 : secMarker k2 st2 t2 ++ c2 = '\\' :: (secTail k2 st2 t2 ++ c2) := rfl
    rw [hdoc2]
    rw [findMatchesGoF_cons_match matchSectionAt
      (secTail k2 st2 t2 ++ c2).length '\\' (secTail k2 st2 t2 ++ c2)
      (0 + ((secTail k1 st1 t1).length + 1) + c1.length)
      ((secTail k2 st2 t2).length + 1) t2
      (matchSectionAt_marker k2 st2 t2 c2 h3 h4)
      (by omega)]
    have hdrop2 : (secTail k2 st2 t2 ++ c2).drop
        ((secTail k2 st2 t2).length + 1 - 1) = c2 := by
      have h21 : (secTail k2 st2 t2).length + 1 - 1 = (secTail k2 st2 t2).length := rfl
      rw [h21, List.drop_left]
    rw [hdrop2]
    rw [findMatchesGoF_no_bs c2 h6 _ _ (by simp)]
    simp only [secMarker, List.length_cons, Nat.zero_add]
  · -- first raw span: up to the start of the next heading
    unfold sliceStr
    have hd : (secMarker k1 st1 t1 ++ (c1 ++ (secMarker k2 st2 t2 ++ c2))).drop
        (secMarker k1 st1 t1).length = c1 ++ (secMarker k2 st2 t2 ++ c2) :=
      List.drop_left _ _
    rw [hd]
    have harith : (secMarker k1 st1 t1).length + c1.length -
        (secMarker k1 st1 t1).length = c1.length := by omega
    rw [harith, List.take_left]
  · -- last raw span: to the end of the document
    unfold sliceStr
    have hassoc : secMarker k1 st1 t1 ++ (c1 ++ (secMarker k2 st2 t2 ++ c2)) =
        (secMarker k1 st1 t1 ++ (c1 ++ secMarker k2 st2 t2)) ++ c2 := by
      simp [List.append_assoc]
    rw [hassoc]
    have hplen : (secMarker k1 st1 t1).length + c1.length +
        (secMarker k2 st2 t2).length =
        (secMarker k1 st1 t1 ++ (c1 ++ secMarker k2 st2 t2)).length := by
      simp
      omega
    rw [hplen, List.drop_left]
    have harith : ((secMarker k1 st1 t1 ++ (c1 ++ secMarker k2 st2 t2)) ++ c2).length -
        (secMarker k1 st1 t1 ++ (c1 ++ secMarker k2 st2 t2)).length = c2.length := by
      simp
      omega
    rw [harith, List.take_length]

/-- Witness for `claim_C5_markers`: a `\subsubsection` heading (depth 2)
followed by a starred `\section*` heading are both recognized, with the
expected spans. -/
theorem claim_C5_markers_witness :
    findSectionMatches (secMarker 2 false ("Methods".toList) ++
      (("NoBS".toList) ++ (secMarker 0 true ("Results".toList) ++ ("Tail".toList)))) =
      [(0, (secMarker 2 false ("Methods".toList)).length, "Methods".toList),
       ((secMarker 2 false ("Methods".toList)).length + ("NoBS".toList).length,
        (secMarker 2 false ("Methods".toList)).length + ("NoBS".toList).length +
          (secMarker 0 true ("Results".toList)).length, "Results".toList)] := by
  exact (claim_C5_markers 2 0 false true ("Methods".toList) ("Results".toList)
    ("NoBS".toList) ("Tail".toList) (by decide) (by decide) (by decide)
    (by decide) (by decide) (by decide)).1

/-- C5 (counterexample): a document containing only a `\subsubsection`
heading — none of the four claimed marker forms `\section{...}`,
`\section*{...}`, `\subsection{...}`, `\subsection*{...}` occurs in it
as a substring — still produces a section: deeper nesting levels *are*
recognized by the pattern `\\(sub)*section\*?\{([^}]+)\}`. -/
theorem claim_C5_counterexample :
    parseLatexSections
      ("\\subsubsection{Methodology}\nWe analyze the proposed approach in detail here. It works on many benchmark datasets today.".toList) =
      [⟨"Methodology".toList,
        ("We analyze the proposed approach in detail here. It works on many benchmark datasets today.").toList, 0⟩] ∧
    containsSub ("\\section\x7b".toList)
      ("\\subsubsection{Methodology}\nWe analyze the proposed approach in detail here. It works on many benchmark datasets today.".toList) = false ∧
    containsSub ("\\section*\x7b".toList)
      ("\\subsubsection{Methodology}\nWe analyze the proposed approach in detail here. It works on many benchmark datasets today.".toList) = false ∧
    containsSub ("\\subsection\x7b".toList)
      ("\\subsubsection{Methodology}\nWe analyze the proposed approach in detail here. It works on many benchmark datasets today.".toList) = false ∧
    containsSub ("\\subsection*\x7b".toList)
      ("\\subsubsection{Methodology}\nWe analyze the proposed approach in detail here. It works on many benchmark datasets today.".toList) = false := by
  exact ⟨by decide, by decide, by decide, by decide, by decide⟩

end SotaAgent
